import Mathlib

/-!
Verification of the job-control and pipeline-parsing core of the two shells
in this repository (`src/tsh.c` and `src/hfsh.cpp`).

The job table is the array `struct job_t jobs[MAXJOBS]` together with the
global counter `nextjid`; it is embedded here as `ShellState`, a list of
`job_t` records (list length = table capacity, 16 in `tsh.c`, 256 in
`hfsh.cpp`; all table operations below are parametric in the list length
and use the constant `MAXJOBS := 16` only where the C sources use the
macro, namely the wrap test in `addjob`) plus the counter.  Each helper
(`maxjid`, `addjob`, `deletejob`, `fgpid`, `getjobpid`, `pid2jid`) is a
direct transcription of the corresponding C function: `for` loops over the
array become structural recursion over the list.  `pid_t` is embedded as
`Int` (it is a signed type and the sources guard `pid < 1`).
-/

/-- Table capacity, `#define MAXJOBS 16` in `tsh.c` (256 in `hfsh.cpp`;
the proofs below never depend on the particular value). -/
def MAXJOBS : Nat := 16

/-- Job state `#define UNDEF 0`. -/
def UNDEF : Nat := 0

/-- Job state `#define FG 1` (running in foreground). -/
def FG : Nat := 1

/-- Job state `#define BG 2` (running in background). -/
def BG : Nat := 2

/-- Job state `#define ST 3` (stopped); named `ST'` because `ST` is taken
by the standard library. -/
def ST' : Nat := 3

/-- Linux signal number of SIGSTOP. -/
def SIGSTOP : Nat := 19

/-- Linux signal number of SIGTSTP. -/
def SIGTSTP : Nat := 20

/-- One slot of the job table, `struct job_t`. -/
structure job_t where
  pid : Int
  jid : Nat
  state : Nat
  cmdline : String
deriving Repr, DecidableEq

/-- The state written by `clearjob`: pid 0, jid 0, state UNDEF, empty
command line (in `hfsh.cpp` the command line is left as is; no claim
depends on the cleared slot's command line). -/
def emptyJob : job_t := ⟨0, 0, UNDEF, ""⟩

/-- The shared mutable state of the job subsystem: the array
`struct job_t jobs[MAXJOBS]` and the global counter `int nextjid`. -/
structure ShellState where
  jobs : List job_t
  nextjid : Nat
deriving Repr, DecidableEq

/-- The state after `initjobs(jobs)` with `nextjid` at its initial value 1. -/
def initState : ShellState := ⟨List.replicate MAXJOBS emptyJob, 1⟩

/-- `maxjid`'s loop: `max` accumulator over the array,
`if (jobs[i].jid > max) max = jobs[i].jid`. -/
def maxjidAux : List job_t → Nat → Nat
  | [], m => m
  | j :: rest, m => maxjidAux rest (if j.jid > m then j.jid else m)

/-- `maxjid(jobs)` — largest allocated job id, 0 on an empty table. -/
def maxjid (jobs : List job_t) : Nat := maxjidAux jobs 0

/-- The loop of `addjob`: find the first free slot (`jobs[i].pid == 0`),
fill it with the given pid/state/cmdline and the current `nextjid`, and
step the counter (`nextjid++; if (nextjid > MAXJOBS) nextjid = 1;`).
Returns the updated array, the updated counter and the success flag. -/
def addjobAux : List job_t → Int → Nat → String → Nat → (List job_t × Nat × Bool)
  | [], _, _, _, njid => ([], njid, false)
  | j :: rest, pid, state, cmd, njid =>
    if j.pid = 0 then
      (⟨pid, njid, state, cmd⟩ :: rest,
       (if njid + 1 > MAXJOBS then 1 else njid + 1), true)
    else
      let r := addjobAux rest pid state cmd njid
      (j :: r.1, r.2.1, r.2.2)

/-- Result of `addjob`: the table state after the call, the C return value
(`1`/`0` as a `Bool`) and the lines printed on stdout. -/
structure AddResult where
  st : ShellState
  ok : Bool
  out : List String
deriving Repr, DecidableEq

/-- `addjob(jobs, pid, state, cmdline)`.  `if (pid < 1) return 0;` leaves
everything untouched; a full table prints `Tried to create too many jobs`
and returns 0 without mutating any slot (the failure branches of the C
function reach no assignment, so the state component is the input state). -/
def addjob (st : ShellState) (pid : Int) (state : Nat) (cmd : String) : AddResult :=
  if pid < 1 then ⟨st, false, []⟩
  else
    match addjobAux st.jobs pid state cmd st.nextjid with
    | (js, njid, true) => ⟨⟨js, njid⟩, true, []⟩
    | (_, _, false) => ⟨st, false, ["Tried to create too many jobs"]⟩

/-- The loop of `deletejob`: clear the first slot whose pid matches. -/
def deletejobAux : List job_t → Int → (List job_t × Bool)
  | [], _ => ([], false)
  | j :: rest, pid =>
    if j.pid = pid then (emptyJob :: rest, true)
    else
      let r := deletejobAux rest pid
      (j :: r.1, r.2)

/-- `deletejob(jobs, pid)`: no-op returning 0 when `pid < 1` or no slot
matches; on a match, clears the slot and recomputes
`nextjid = maxjid(jobs) + 1` on the already-cleared table. -/
def deletejob (st : ShellState) (pid : Int) : ShellState × Bool :=
  if pid < 1 then (st, false)
  else
    match deletejobAux st.jobs pid with
    | (js, true) => (⟨js, maxjid js + 1⟩, true)
    | (_, false) => (st, false)

/-- `fgpid(jobs)`: pid of the first slot in FG state, 0 if none. -/
def fgpid : List job_t → Int
  | [] => 0
  | j :: rest => if j.state = FG then j.pid else fgpid rest

/-- The search loop shared by `getjobpid` and `pid2jid`: first slot whose
pid matches. -/
def findByPid : List job_t → Int → Option job_t
  | [], _ => none
  | j :: rest, pid => if j.pid = pid then some j else findByPid rest pid

/-- `getjobpid(jobs, pid)`: NULL for `pid < 1`, else the first matching
slot (a pointer into the array in C; here the record it points at). -/
def getjobpid (jobs : List job_t) (pid : Int) : Option job_t :=
  if pid < 1 then none else findByPid jobs pid

/-- `pid2jid(pid)`: job id of the first matching slot, 0 when absent or
`pid < 1`. -/
def pid2jid (jobs : List job_t) (pid : Int) : Nat :=
  if pid < 1 then 0
  else
    match findByPid jobs pid with
    | some j => j.jid
    | none => 0

/-- The in-place write `job->state = s` through the pointer returned by
`getjobpid`: updates the state field of the first slot whose pid
matches. -/
def setStateByPid : List job_t → Int → Nat → List job_t
  | [], _, _ => []
  | j :: rest, pid, s =>
    if j.pid = pid then { j with state := s } :: rest
    else j :: setStateByPid rest pid s

/-- The status reported by `waitpid(-1, &status, WNOHANG | WUNTRACED)` for
one reaped child: `WIFSTOPPED` with `WSTOPSIG`, `WIFSIGNALED` with
`WTERMSIG`, or `WIFEXITED` with the exit code. -/
inductive WaitStatus where
  | stopped (sig : Nat)
  | signaled (sig : Nat)
  | exited (code : Nat)
deriving Repr, DecidableEq

/-- The line printed by the stopped branch of `sigchld_handler`:
`printf("Job [%d] (%d) stopped by signal %d\n", ...)` (without the
trailing newline). -/
def stopLine (jid : Nat) (pid : Int) (sig : Nat) : String :=
  "Job [" ++ toString jid ++ "] (" ++ toString pid ++ ") stopped by signal "
    ++ toString sig

/-- The line printed by the terminated-by-signal branch of
`sigchld_handler`: `printf("Job [%d] (%d) terminated by signal %d\n", ...)`
(without the trailing newline). -/
def termLine (jid : Nat) (pid : Int) (sig : Nat) : String :=
  "Job [" ++ toString jid ++ "] (" ++ toString pid ++ ") terminated by signal "
    ++ toString sig

/-- One iteration of the reap loop of `sigchld_handler` (identical in
`tsh.c` and `hfsh.cpp`), acting on one reaped pid and its wait status.
`current_job = getjobpid(jobs, pid)` may be NULL; the stopped branch then
executes `current_job->state = ST` and the terminated-by-signal branch
reads `current_job->jid` / `current_job->pid`, both dereferences of a null
pointer — that undefined behavior is embedded as the result `none`.  A
defined iteration returns the updated table state and the printed lines.
Note the stopped branch prints the constant `SIGTSTP`, not the signal that
stopped the child, and the terminated branch prints before deleting. -/
def sigchld_step (st : ShellState) (pid : Int) (ws : WaitStatus) :
    Option (ShellState × List String) :=
  match ws with
  | .stopped _ =>
    match getjobpid st.jobs pid with
    | none => none
    | some _ =>
      some (⟨setStateByPid st.jobs pid ST', st.nextjid⟩,
            [stopLine (pid2jid st.jobs pid) pid SIGTSTP])
  | .signaled sig =>
    match getjobpid st.jobs pid with
    | none => none
    | some j => some ((deletejob st pid).1, [termLine j.jid j.pid sig])
  | .exited _ => some ((deletejob st pid).1, [])

/-!
The Pipeline Builder: `parse_tokens` of `hfsh.cpp`.  The token array
`char **argv` is embedded as a `List (Option String)`; reading `argv[i]`
past the end yields `none` (the NULL terminator produced by the
tokenizer), and the code's `argv[i] = NULL` writes become `setTokNone`.
A stage (`struct piped`) stores `command = &argv[i]` as the start index
`command` into that array; the argv that `execvp` actually receives is the
tokens from that index up to the first NULL (`stageArgv`).
-/

/-- One pipeline stage, `struct piped` (`command` is the start index of
`char **command` within the token array; the two file descriptors of the
struct are set only at execution time and play no part in parsing). -/
structure piped where
  command : Nat
  file_in : Option String
  file_out : Option String
deriving Repr, DecidableEq

/-- `argv[i]` on the embedded token array: `none` past the end. -/
def getTok (a : List (Option String)) (i : Nat) : Option String :=
  a.getD i none

/-- `argv[i] = NULL`. -/
def setTokNone (a : List (Option String)) (i : Nat) : List (Option String) :=
  a.set i none

/-- Result of `parse_tokens`: the mutated token array, the
`pipe_commands` list, and the global `mode` (FG or BG). -/
structure ParseResult where
  arr : List (Option String)
  stages : List piped
  mode : Nat
deriving Repr, DecidableEq

/-- The loop `for(i = 0; argv[i] != NULL; i++)` of `parse_tokens`.  The
fuel argument only bounds the iteration count; the loop in fact stops as
soon as `i` runs off the array (every step moves from `i` to `i + 1`,
so `a.length + 1 - i` units suffice).  `cur` is the global
`piped_command` under construction, `acc` the `pipe_commands` list, and
`mode` the global foreground/background flag. -/
def parseTokensLoop : Nat → List (Option String) → Nat → piped → List piped →
    Nat → (List (Option String) × List piped × piped × Nat)
  | 0, a, _, cur, acc, mode => (a, acc, cur, mode)
  | fuel + 1, a, i, cur, acc, mode =>
    match getTok a i with
    | none => (a, acc, cur, mode)
    | some t =>
      if t = "<" then
        -- piped_command.file_in = argv[i + 1]; argv[i] = NULL;
        parseTokensLoop fuel (setTokNone a i) (i + 1)
          { cur with file_in := getTok a (i + 1) } acc mode
      else if t = ">" then
        -- piped_command.file_out = argv[i + 1]; argv[i] = NULL;
        parseTokensLoop fuel (setTokNone a i) (i + 1)
          { cur with file_out := getTok a (i + 1) } acc mode
      else if t = "|" then
        -- push_back the current stage, restart at argv[i + 1]
        parseTokensLoop fuel (setTokNone a i) (i + 1)
          ⟨i + 1, none, none⟩ (acc ++ [cur]) mode
      else if getTok a (i + 1) = none then
        -- last token: a trailing lone & selects background
        if t = "&" then parseTokensLoop fuel (setTokNone a i) (i + 1) cur acc BG
        else parseTokensLoop fuel a (i + 1) cur acc FG
      else
        parseTokensLoop fuel a (i + 1) cur acc mode

/-- `parse_tokens(argv)` applied to a freshly tokenized line: the initial
`piped_command` has `command = &argv[0]` and NULL files (set by
`reset_variables` after the previous command).  `mode0` is the prior value
of the global `mode`, which the loop may leave untouched.  The final stage
is pushed after the loop. -/
def parse_tokens (toks : List String) (mode0 : Nat) : ParseResult :=
  let a := toks.map some
  match parseTokensLoop (a.length + 1) a 0 ⟨0, none, none⟩ [] mode0 with
  | (a', acc, cur, mode) => ⟨a', acc ++ [cur], mode⟩

/-- The argv a stage hands `execvp`: the tokens of the (mutated) array
from the stage's start index up to the first NULL. -/
def stageArgv (a : List (Option String)) (p : piped) : List String :=
  ((a.drop p.command).takeWhile Option.isSome).filterMap id

/-!
Reachable states of the shell.  The job table is mutated from exactly
these places in the two sources:

* `addjob(jobs, pid, BG/FG, cmd)` — `eval` in `tsh.c` after a fork, and
  `external_cmd`/`execute_pipe` in `hfsh.cpp` once per pipeline stage;
* the reap loop of `sigchld_handler` (stop / delete);
* `do_bgfg` in `tsh.c`, which writes `job_process->state` through the
  pointer returned by `getjobpid` or `getjobjid`.

A foreground registration or a `fg` state change can only execute from
the main control flow, and the main control flow reaches those points
only with no foreground job in the table: `eval`/`do_bgfg` run from the
read/eval loop, which is re-entered only after `waitfg` has observed
`fgpid(jobs) != pid` for the job it launched, and in `hfsh.cpp` stage
`k + 1` of a foreground pipeline is registered only after
`parent_tasks` → `waitfg` returned for stage `k`.  Since no asynchronous
mutation ever sets a state to FG, `fgpid(jobs) == 0` holds at each such
point; the `launch_fg` / `fg_cmd` transitions carry that control-flow
fact as a guard.  Background registrations and all handler-side
mutations are unguarded.
-/

/-- Number of table records in state FG. -/
def fgCount : List job_t → Nat
  | [] => 0
  | j :: rest => (if j.state = FG then 1 else 0) + fgCount rest

/-- The in-place write `job->state = s` through the pointer returned by
`getjobjid` (`do_bgfg` with a `%jid` argument): first slot whose jid
matches. -/
def setStateByJid : List job_t → Nat → Nat → List job_t
  | [], _, _ => []
  | j :: rest, jid, s =>
    if j.jid = jid then { j with state := s } :: rest
    else j :: setStateByJid rest jid s

/-- `getjobjid(jobs, jid)`: NULL for `jid < 1`, else the first matching
slot. -/
def getjobjid (jobs : List job_t) (jid : Nat) : Option job_t :=
  if jid < 1 then none
  else jobs.find? (fun j => j.jid == jid)

/-- One observable mutation of the job table (see the section comment
for the provenance of each transition and of the two guards). -/
inductive Step : ShellState → ShellState → Prop where
  | launch_bg (st : ShellState) (pid : Int) (cmd : String) :
      Step st (addjob st pid BG cmd).st
  | launch_fg (st : ShellState) (pid : Int) (cmd : String) :
      fgpid st.jobs = 0 → Step st (addjob st pid FG cmd).st
  | reap (st : ShellState) (pid : Int) (ws : WaitStatus)
      (st' : ShellState) (out : List String) :
      sigchld_step st pid ws = some (st', out) → Step st st'
  | bg_cmd (st : ShellState) (pid : Int) (j : job_t) :
      getjobpid st.jobs pid = some j →
      Step st ⟨setStateByPid st.jobs pid BG, st.nextjid⟩
  | fg_cmd (st : ShellState) (pid : Int) (j : job_t) :
      fgpid st.jobs = 0 → getjobpid st.jobs pid = some j →
      Step st ⟨setStateByPid st.jobs pid FG, st.nextjid⟩
  | bg_cmd_jid (st : ShellState) (jid : Nat) (j : job_t) :
      getjobjid st.jobs jid = some j →
      Step st ⟨setStateByJid st.jobs jid BG, st.nextjid⟩
  | fg_cmd_jid (st : ShellState) (jid : Nat) (j : job_t) :
      fgpid st.jobs = 0 → getjobjid st.jobs jid = some j →
      Step st ⟨setStateByJid st.jobs jid FG, st.nextjid⟩

/-- States of the job table reachable from the freshly initialized
shell. -/
inductive Reachable : ShellState → Prop where
  | init : Reachable initState
  | step {st st' : ShellState} : Reachable st → Step st st' → Reachable st'

/-- A well-formed slot: occupied with a positive pid, or fully cleared
(the state `clearjob` writes). -/
def GoodSlot (j : job_t) : Prop :=
  1 ≤ j.pid ∨ (j.pid = 0 ∧ j.jid = 0 ∧ j.state = UNDEF)

/-- Every slot of the array is well formed. -/
def SlotsOkL (jobs : List job_t) : Prop := ∀ j ∈ jobs, GoodSlot j

/-- The inductive invariant: at most one FG record, and every slot either
occupied (positive pid) or fully cleared. -/
def FgInv (st : ShellState) : Prop :=
  fgCount st.jobs ≤ 1 ∧ SlotsOkL st.jobs

theorem occ_of_slotsOk {jobs : List job_t} (h : SlotsOkL jobs) :
    ∀ j ∈ jobs, j.state = FG → 1 ≤ j.pid := by
  intro j hj hf
  rcases h j hj with hp | ⟨_, _, hu⟩
  · exact hp
  · rw [hf] at hu
    exact absurd hu (by decide)

theorem fgCount_eq_zero (jobs : List job_t)
    (hocc : ∀ j ∈ jobs, j.state = FG → 1 ≤ j.pid)
    (hz : fgpid jobs = 0) : fgCount jobs = 0 := by
  induction jobs with
  | nil => rfl
  | cons j rest ih =>
    by_cases hf : j.state = FG
    · exfalso
      have h1 : 1 ≤ j.pid := hocc j (List.mem_cons_self _ _) hf
      have h2 : fgpid (j :: rest) = j.pid := by simp [fgpid, hf]
      rw [hz] at h2
      omega
    · have h2 : fgpid (j :: rest) = fgpid rest := by simp [fgpid, hf]
      have := ih (fun x hx => hocc x (List.mem_cons_of_mem _ hx)) (h2 ▸ hz)
      simp [fgCount, hf, this]

theorem fgCount_setStateByPid_le (jobs : List job_t) (pid : Int) (s : Nat)
    (hs : s ≠ FG) : fgCount (setStateByPid jobs pid s) ≤ fgCount jobs := by
  induction jobs with
  | nil => simp [setStateByPid]
  | cons j rest ih =>
    by_cases hp : j.pid = pid
    · by_cases hf : j.state = FG
      · simp only [setStateByPid, hp, if_true, fgCount, hs, if_false, hf]
        omega
      · simp only [setStateByPid, hp, if_true, fgCount, hs, if_false, hf]
        omega
    · simp only [setStateByPid, hp, if_false, fgCount]
      omega

theorem fgCount_setStateByPid_fg (jobs : List job_t) (pid : Int)
    (h : fgCount jobs = 0) : fgCount (setStateByPid jobs pid FG) ≤ 1 := by
  induction jobs with
  | nil => simp [setStateByPid, fgCount]
  | cons j rest ih =>
    simp only [fgCount] at h
    by_cases hp : j.pid = pid
    · simp only [setStateByPid, hp, if_true, fgCount]
      omega
    · simp only [setStateByPid, hp, if_false, fgCount]
      have := ih (by omega)
      omega

theorem occ_setStateByPid (jobs : List job_t) (pid : Int) (s : Nat)
    (hocc : ∀ j ∈ jobs, j.state = FG → 1 ≤ j.pid) (hpid : 1 ≤ pid) :
    ∀ j ∈ setStateByPid jobs pid s, j.state = FG → 1 ≤ j.pid := by
  induction jobs with
  | nil => simp [setStateByPid]
  | cons j rest ih =>
    by_cases hp : j.pid = pid
    · simp only [setStateByPid, hp, if_true]
      intro x hx
      rcases List.mem_cons.mp hx with h | h
      · subst h; intro _; simpa [hp] using hpid
      · exact hocc x (List.mem_cons_of_mem _ h)
    · simp only [setStateByPid, hp, if_false]
      intro x hx
      rcases List.mem_cons.mp hx with h | h
      · subst h; exact hocc x (List.mem_cons_self _ _)
      · exact ih (fun y hy => hocc y (List.mem_cons_of_mem _ hy)) x h

theorem getjobpid_pos {jobs : List job_t} {pid : Int} {j : job_t}
    (h : getjobpid jobs pid = some j) : 1 ≤ pid := by
  by_cases hp : pid < 1
  · simp [getjobpid, hp] at h
  · omega

theorem fgCount_addjobAux_le (jobs : List job_t) (pid : Int) (s : Nat)
    (cmd : String) (njid : Nat) (hs : s ≠ FG)
    (hocc : ∀ j ∈ jobs, j.state = FG → 1 ≤ j.pid) :
    fgCount (addjobAux jobs pid s cmd njid).1 ≤ fgCount jobs := by
  induction jobs with
  | nil => simp [addjobAux]
  | cons j rest ih =>
    by_cases hp : j.pid = 0
    · have hjf : ¬j.state = FG := by
        intro hf
        have := hocc j (List.mem_cons_self _ _) hf
        omega
      simp [addjobAux, hp, fgCount, hs, hjf]
    · simp only [addjobAux, hp, if_false, fgCount]
      have := ih fun y hy => hocc y (List.mem_cons_of_mem _ hy)
      omega

theorem fgCount_addjobAux_fg (jobs : List job_t) (pid : Int) (s : Nat)
    (cmd : String) (njid : Nat) (h : fgCount jobs = 0) :
    fgCount (addjobAux jobs pid s cmd njid).1 ≤ 1 := by
  induction jobs with
  | nil => simp [addjobAux, fgCount]
  | cons j rest ih =>
    simp only [fgCount] at h
    by_cases hp : j.pid = 0
    · simp only [addjobAux, hp, if_true, fgCount]
      have hrest : fgCount rest = 0 := by omega
      split <;> omega
    · simp only [addjobAux, hp, if_false, fgCount]
      have := ih (by omega)
      omega

theorem occ_addjobAux (jobs : List job_t) (pid : Int) (s : Nat)
    (cmd : String) (njid : Nat) (hpid : 1 ≤ pid)
    (hocc : ∀ j ∈ jobs, j.state = FG → 1 ≤ j.pid) :
    ∀ j ∈ (addjobAux jobs pid s cmd njid).1, j.state = FG → 1 ≤ j.pid := by
  induction jobs with
  | nil => simp [addjobAux]
  | cons j rest ih =>
    by_cases hp : j.pid = 0
    · simp only [addjobAux, hp, if_true]
      intro x hx
      rcases List.mem_cons.mp hx with h | h
      · subst h; intro _; exact hpid
      · exact hocc x (List.mem_cons_of_mem _ h)
    · simp only [addjobAux, hp, if_false]
      intro x hx
      rcases List.mem_cons.mp hx with h | h
      · subst h; exact hocc x (List.mem_cons_self _ _)
      · exact ih (fun y hy => hocc y (List.mem_cons_of_mem _ hy)) x h

theorem fgCount_deletejobAux_le (jobs : List job_t) (pid : Int) :
    fgCount (deletejobAux jobs pid).1 ≤ fgCount jobs := by
  induction jobs with
  | nil => simp [deletejobAux]
  | cons j rest ih =>
    by_cases hp : j.pid = pid
    · simp only [deletejobAux, hp, if_true, fgCount]
      have : ¬emptyJob.state = FG := by decide
      simp only [this, if_false]
      omega
    · simp only [deletejobAux, hp, if_false, fgCount]
      omega

theorem occ_deletejobAux (jobs : List job_t) (pid : Int)
    (hocc : ∀ j ∈ jobs, j.state = FG → 1 ≤ j.pid) :
    ∀ j ∈ (deletejobAux jobs pid).1, j.state = FG → 1 ≤ j.pid := by
  induction jobs with
  | nil => simp [deletejobAux]
  | cons j rest ih =>
    by_cases hp : j.pid = pid
    · simp only [deletejobAux, hp, if_true]
      intro x hx
      rcases List.mem_cons.mp hx with h | h
      · subst h; intro hf; exact absurd hf (by decide)
      · exact hocc x (List.mem_cons_of_mem _ h)
    · simp only [deletejobAux, hp, if_false]
      intro x hx
      rcases List.mem_cons.mp hx with h | h
      · subst h; exact hocc x (List.mem_cons_self _ _)
      · exact ih (fun y hy => hocc y (List.mem_cons_of_mem _ hy)) x h

theorem slotsOk_addjobAux (jobs : List job_t) (pid : Int) (s : Nat)
    (cmd : String) (njid : Nat) (hpid : 1 ≤ pid) (h : SlotsOkL jobs) :
    SlotsOkL (addjobAux jobs pid s cmd njid).1 := by
  induction jobs with
  | nil => simp [addjobAux, SlotsOkL]
  | cons j rest ih =>
    by_cases hp : j.pid = 0
    · simp only [addjobAux, hp, if_true]
      intro x hx
      rcases List.mem_cons.mp hx with hh | hh
      · subst hh; exact Or.inl hpid
      · exact h x (List.mem_cons_of_mem _ hh)
    · simp only [addjobAux, hp, if_false]
      intro x hx
      rcases List.mem_cons.mp hx with hh | hh
      · subst hh; exact h x (List.mem_cons_self _ _)
      · exact ih (fun y hy => h y (List.mem_cons_of_mem _ hy)) x hh

theorem slotsOk_deletejobAux (jobs : List job_t) (pid : Int)
    (h : SlotsOkL jobs) : SlotsOkL (deletejobAux jobs pid).1 := by
  induction jobs with
  | nil => simp [deletejobAux, SlotsOkL]
  | cons j rest ih =>
    by_cases hp : j.pid = pid
    · simp only [deletejobAux, hp, if_true]
      intro x hx
      rcases List.mem_cons.mp hx with hh | hh
      · subst hh; exact Or.inr ⟨rfl, rfl, rfl⟩
      · exact h x (List.mem_cons_of_mem _ hh)
    · simp only [deletejobAux, hp, if_false]
      intro x hx
      rcases List.mem_cons.mp hx with hh | hh
      · subst hh; exact h x (List.mem_cons_self _ _)
      · exact ih (fun y hy => h y (List.mem_cons_of_mem _ hy)) x hh

theorem slotsOk_setStateByPid (jobs : List job_t) (pid : Int) (s : Nat)
    (hpid : 1 ≤ pid) (h : SlotsOkL jobs) :
    SlotsOkL (setStateByPid jobs pid s) := by
  induction jobs with
  | nil => simp [setStateByPid, SlotsOkL]
  | cons j rest ih =>
    by_cases hp : j.pid = pid
    · simp only [setStateByPid, hp, if_true]
      intro x hx
      rcases List.mem_cons.mp hx with hh | hh
      · subst hh; exact Or.inl (by simpa [hp] using hpid)
      · exact h x (List.mem_cons_of_mem _ hh)
    · simp only [setStateByPid, hp, if_false]
      intro x hx
      rcases List.mem_cons.mp hx with hh | hh
      · subst hh; exact h x (List.mem_cons_self _ _)
      · exact ih (fun y hy => h y (List.mem_cons_of_mem _ hy)) x hh

theorem slotsOk_setStateByJid (jobs : List job_t) (jid : Nat) (s : Nat)
    (hjid : 1 ≤ jid) (h : SlotsOkL jobs) :
    SlotsOkL (setStateByJid jobs jid s) := by
  induction jobs with
  | nil => simp [setStateByJid, SlotsOkL]
  | cons j rest ih =>
    by_cases hp : j.jid = jid
    · simp only [setStateByJid, hp, if_true]
      intro x hx
      rcases List.mem_cons.mp hx with hh | hh
      · subst hh
        rcases h j (List.mem_cons_self _ _) with hg | ⟨_, hj0, _⟩
        · exact Or.inl hg
        · omega
      · exact h x (List.mem_cons_of_mem _ hh)
    · simp only [setStateByJid, hp, if_false]
      intro x hx
      rcases List.mem_cons.mp hx with hh | hh
      · subst hh; exact h x (List.mem_cons_self _ _)
      · exact ih (fun y hy => h y (List.mem_cons_of_mem _ hy)) x hh

theorem fgCount_setStateByJid_le (jobs : List job_t) (jid : Nat) (s : Nat)
    (hs : s ≠ FG) : fgCount (setStateByJid jobs jid s) ≤ fgCount jobs := by
  induction jobs with
  | nil => simp [setStateByJid]
  | cons j rest ih =>
    by_cases hp : j.jid = jid
    · by_cases hf : j.state = FG
      · simp only [setStateByJid, hp, if_true, fgCount, hs, if_false, hf]
        omega
      · simp only [setStateByJid, hp, if_true, fgCount, hs, if_false, hf]
        omega
    · simp only [setStateByJid, hp, if_false, fgCount]
      omega

theorem fgCount_setStateByJid_fg (jobs : List job_t) (jid : Nat)
    (h : fgCount jobs = 0) : fgCount (setStateByJid jobs jid FG) ≤ 1 := by
  induction jobs with
  | nil => simp [setStateByJid, fgCount]
  | cons j rest ih =>
    simp only [fgCount] at h
    by_cases hp : j.jid = jid
    · simp only [setStateByJid, hp, if_true, fgCount]
      omega
    · simp only [setStateByJid, hp, if_false, fgCount]
      have := ih (by omega)
      omega

theorem fgInv_addjob (st : ShellState) (pid : Int) (s : Nat) (cmd : String)
    (hinv : FgInv st) (hfg : s = FG → fgCount st.jobs = 0) :
    FgInv (addjob st pid s cmd).st := by
  obtain ⟨h1, h2⟩ := hinv
  by_cases hp : pid < 1
  · simpa [addjob, hp, FgInv] using ⟨h1, h2⟩
  · have hpid : 1 ≤ pid := by omega
    rcases haux : addjobAux st.jobs pid s cmd st.nextjid with ⟨js, njid, ok⟩
    cases ok with
    | false => simpa [addjob, hp, haux, FgInv] using ⟨h1, h2⟩
    | true =>
      have hjobs : (addjob st pid s cmd).st.jobs = js := by
        simp [addjob, hp, haux]
      unfold FgInv
      rw [hjobs]
      constructor
      · by_cases hs : s = FG
        · have := fgCount_addjobAux_fg st.jobs pid s cmd st.nextjid (hfg hs)
          rw [haux] at this
          exact this
        · have := fgCount_addjobAux_le st.jobs pid s cmd st.nextjid hs
            (occ_of_slotsOk h2)
          rw [haux] at this
          exact le_trans this h1
      · have := slotsOk_addjobAux st.jobs pid s cmd st.nextjid hpid h2
        rw [haux] at this
        exact this

theorem fgInv_deletejob (st : ShellState) (pid : Int) (hinv : FgInv st) :
    FgInv (deletejob st pid).1 := by
  obtain ⟨h1, h2⟩ := hinv
  by_cases hp : pid < 1
  · simpa [deletejob, hp, FgInv] using ⟨h1, h2⟩
  · rcases hdel : deletejobAux st.jobs pid with ⟨js, found⟩
    cases found with
    | false => simpa [deletejob, hp, hdel, FgInv] using ⟨h1, h2⟩
    | true =>
      have hjobs : (deletejob st pid).1.jobs = js := by
        simp [deletejob, hp, hdel]
      unfold FgInv
      rw [hjobs]
      constructor
      · have := fgCount_deletejobAux_le st.jobs pid
        rw [hdel] at this
        exact le_trans this h1
      · have := slotsOk_deletejobAux st.jobs pid h2
        rw [hdel] at this
        exact this

theorem getjobjid_pos {jobs : List job_t} {jid : Nat} {j : job_t}
    (h : getjobjid jobs jid = some j) : 1 ≤ jid := by
  by_cases hj : jid < 1
  · simp [getjobjid, hj] at h
  · omega

theorem fgInv_step {st st' : ShellState} (hinv : FgInv st)
    (hstep : Step st st') : FgInv st' := by
  cases hstep with
  | launch_bg pid cmd =>
    exact fgInv_addjob st pid BG cmd hinv (fun h => absurd h (by decide))
  | launch_fg pid cmd hz =>
    exact fgInv_addjob st pid FG cmd hinv
      (fun _ => fgCount_eq_zero st.jobs (occ_of_slotsOk hinv.2) hz)
  | reap pid ws st' out hws =>
    cases ws with
    | stopped sig =>
      cases hj : getjobpid st.jobs pid with
      | none => simp [sigchld_step, hj] at hws
      | some j =>
        have hpid := getjobpid_pos hj
        simp only [sigchld_step, hj, Option.some.injEq, Prod.mk.injEq] at hws
        obtain ⟨h1', -⟩ := hws
        subst h1'
        unfold FgInv
        constructor
        · exact le_trans
            (fgCount_setStateByPid_le st.jobs pid ST' (by decide)) hinv.1
        · exact slotsOk_setStateByPid st.jobs pid ST' hpid hinv.2
    | signaled sig =>
      cases hj : getjobpid st.jobs pid with
      | none => simp [sigchld_step, hj] at hws
      | some j =>
        simp only [sigchld_step, hj, Option.some.injEq, Prod.mk.injEq] at hws
        obtain ⟨h1', -⟩ := hws
        subst h1'
        exact fgInv_deletejob st pid hinv
    | exited code =>
      simp only [sigchld_step, Option.some.injEq, Prod.mk.injEq] at hws
      obtain ⟨h1', -⟩ := hws
      subst h1'
      exact fgInv_deletejob st pid hinv
  | bg_cmd pid j hj =>
    unfold FgInv
    constructor
    · exact le_trans (fgCount_setStateByPid_le st.jobs pid BG (by decide)) hinv.1
    · exact slotsOk_setStateByPid st.jobs pid BG (getjobpid_pos hj) hinv.2
  | fg_cmd pid j hz hj =>
    unfold FgInv
    constructor
    · exact fgCount_setStateByPid_fg st.jobs pid
        (fgCount_eq_zero st.jobs (occ_of_slotsOk hinv.2) hz)
    · exact slotsOk_setStateByPid st.jobs pid FG (getjobpid_pos hj) hinv.2
  | bg_cmd_jid jid j hj =>
    unfold FgInv
    constructor
    · exact le_trans (fgCount_setStateByJid_le st.jobs jid BG (by decide)) hinv.1
    · exact slotsOk_setStateByJid st.jobs jid BG (getjobjid_pos hj) hinv.2
  | fg_cmd_jid jid j hz hj =>
    unfold FgInv
    constructor
    · exact fgCount_setStateByJid_fg st.jobs jid
        (fgCount_eq_zero st.jobs (occ_of_slotsOk hinv.2) hz)
    · exact slotsOk_setStateByJid st.jobs jid FG (getjobjid_pos hj) hinv.2

theorem fgInv_reachable {st : ShellState} (h : Reachable st) : FgInv st := by
  induction h with
  | init =>
    refine ⟨by decide, ?_⟩
    unfold SlotsOkL GoodSlot
    decide
  | step _ hs ih => exact fgInv_step ih hs

/-- **C1.** In every reachable state of the shell the job table contains
at most one record in state FG: the transition system `Step` covers every
table mutation of both sources — each registration of a pipeline stage by
the Process Launcher (`launch_bg`/`launch_fg`), every reap-loop iteration
of the child-status handler, and every bg/fg state change of `do_bgfg`
(by pid or by job id) — so after any such event no two occupied slots are
both FG. -/
theorem C1_at_most_one_foreground (st : ShellState) (h : Reachable st) :
    fgCount st.jobs ≤ 1 :=
  (fgInv_reachable h).1

/-- Witness for C1: a concrete reachable state — register a foreground
job with pid 7, then a background job with pid 9 — has at most one FG
record. -/
theorem C1_at_most_one_foreground_witness :
    fgCount (addjob (addjob initState 7 FG "sleep 100").st 9 BG "sleep 5 &").st.jobs ≤ 1 :=
  C1_at_most_one_foreground _
    (Reachable.step
      (Reachable.step Reachable.init (Step.launch_fg initState 7 "sleep 100" (by decide)))
      (Step.launch_bg (addjob initState 7 FG "sleep 100").st 9 "sleep 5 &"))

theorem addjobAux_fail_iff (jobs : List job_t) (pid : Int) (s : Nat)
    (cmd : String) (njid : Nat) :
    (addjobAux jobs pid s cmd njid).2.2 = false ↔ ∀ j ∈ jobs, j.pid ≠ 0 := by
  induction jobs with
  | nil => simp [addjobAux]
  | cons j rest ih =>
    by_cases hp : j.pid = 0
    · simp only [addjobAux, hp, if_true]
      constructor
      · intro h; exact absurd h (by decide)
      · intro h; exact absurd hp (h j (List.mem_cons_self _ _))
    · simp only [addjobAux, hp, if_false, List.forall_mem_cons]
      constructor
      · intro h; exact ⟨hp, ih.mp h⟩
      · intro h; exact ih.mpr h.2

theorem addjobAux_success (jobs : List job_t) (pid : Int) (s : Nat)
    (cmd : String) (njid : Nat)
    (h : (addjobAux jobs pid s cmd njid).2.2 = true) :
    (addjobAux jobs pid s cmd njid).2.1
        = (if njid + 1 > MAXJOBS then 1 else njid + 1) ∧
      ∃ i, i < jobs.length ∧ (jobs.getD i emptyJob).pid = 0 ∧
        (addjobAux jobs pid s cmd njid).1 = jobs.set i ⟨pid, njid, s, cmd⟩ := by
  induction jobs with
  | nil => exact absurd h (by simp [addjobAux])
  | cons j rest ih =>
    by_cases hp : j.pid = 0
    · refine ⟨by simp [addjobAux, hp], 0, by simp, by simpa using hp, ?_⟩
      simp [addjobAux, hp]
    · simp only [addjobAux, hp, if_false] at h ⊢
      obtain ⟨h1, i, hi, hfree, hset⟩ := ih h
      refine ⟨h1, i + 1, by simpa using hi, by simpa using hfree, ?_⟩
      simpa using hset

theorem deletejobAux_found_iff (jobs : List job_t) (pid : Int) :
    (deletejobAux jobs pid).2 = true ↔ ∃ j ∈ jobs, j.pid = pid := by
  induction jobs with
  | nil => simp [deletejobAux]
  | cons j rest ih =>
    by_cases hp : j.pid = pid
    · simp [deletejobAux, hp]
    · simp only [deletejobAux, hp, if_false]
      rw [ih]
      constructor
      · intro ⟨x, hx, he⟩; exact ⟨x, List.mem_cons_of_mem _ hx, he⟩
      · intro ⟨x, hx, he⟩
        rcases List.mem_cons.mp hx with hh | hh
        · subst hh; exact absurd he hp
        · exact ⟨x, hh, he⟩

theorem deletejobAux_not_found (jobs : List job_t) (pid : Int)
    (h : ∀ j ∈ jobs, j.pid ≠ pid) : deletejobAux jobs pid = (jobs, false) := by
  induction jobs with
  | nil => rfl
  | cons j rest ih =>
    have hp : ¬j.pid = pid := h j (List.mem_cons_self _ _)
    simp only [deletejobAux, hp, if_false]
    rw [ih fun y hy => h y (List.mem_cons_of_mem _ hy)]

theorem deletejobAux_getD_ne (jobs : List job_t) (pid : Int) (i : Nat)
    (h : (jobs.getD i emptyJob).pid ≠ pid) :
    (deletejobAux jobs pid).1.getD i emptyJob = jobs.getD i emptyJob := by
  induction jobs generalizing i with
  | nil => simp [deletejobAux]
  | cons j rest ih =>
    by_cases hp : j.pid = pid
    · cases i with
      | zero => exact absurd hp (by simpa using h)
      | succ i => simp [deletejobAux, hp]
    · cases i with
      | zero => simp [deletejobAux, hp]
      | succ i =>
        simp only [deletejobAux, hp, if_false, List.getD_cons_succ] at h ⊢
        exact ih i h

/-- **C10.** `addjob` called with `pid < 1` — the free-slot sentinel 0 or
any negative pid — fails immediately: the returned state is the input
state (every slot and the `nextjid` counter unchanged), the return value
is 0, and nothing is printed; hence a free slot can never become occupied
by the sentinel pid. -/
theorem C10_addjob_sentinel_pid (st : ShellState) (pid : Int) (s : Nat)
    (cmd : String) (h : pid < 1) : addjob st pid s cmd = ⟨st, false, []⟩ := by
  simp [addjob, h]

/-- Witness for C10 at pid 0 (the sentinel) and pid −3 (negative). -/
theorem C10_addjob_sentinel_pid_witness :
    addjob initState 0 BG "x" = ⟨initState, false, []⟩ ∧
      addjob initState (-3) FG "y" = ⟨initState, false, []⟩ :=
  ⟨C10_addjob_sentinel_pid initState 0 BG "x" (by decide),
   C10_addjob_sentinel_pid initState (-3) FG "y" (by decide)⟩

/-- **C4.** For `pid > 0`, `addjob` fails exactly when no free slot
exists; the failure prints `Tried to create too many jobs`, returns 0 and
leaves the whole table state (every slot and the counter) unchanged — the
job is simply not tracked.  On success the new slot receives the next job
id `nextjid`, and the counter is incremented, wrapping to 1 once it
exceeds the table capacity `MAXJOBS`. -/
theorem C4_addjob_full_table (st : ShellState) (pid : Int) (s : Nat)
    (cmd : String) (h : 1 ≤ pid) :
    ((addjob st pid s cmd).ok = false ↔ ∀ j ∈ st.jobs, j.pid ≠ 0) ∧
    ((addjob st pid s cmd).ok = false →
      (addjob st pid s cmd).st = st ∧
      (addjob st pid s cmd).out = ["Tried to create too many jobs"]) ∧
    ((addjob st pid s cmd).ok = true →
      (addjob st pid s cmd).st.nextjid
          = (if st.nextjid + 1 > MAXJOBS then 1 else st.nextjid + 1) ∧
      ∃ i, i < st.jobs.length ∧ (st.jobs.getD i emptyJob).pid = 0 ∧
        (addjob st pid s cmd).st.jobs
          = st.jobs.set i ⟨pid, st.nextjid, s, cmd⟩) := by
  have hp : ¬pid < 1 := by omega
  rcases haux : addjobAux st.jobs pid s cmd st.nextjid with ⟨js, njid, ok⟩
  cases ok with
  | false =>
    have hfail : ∀ j ∈ st.jobs, j.pid ≠ 0 := by
      have := (addjobAux_fail_iff st.jobs pid s cmd st.nextjid).mp
      rw [haux] at this
      exact this rfl
    refine ⟨?_, ?_, ?_⟩
    · constructor
      · intro _; exact hfail
      · intro _; simp [addjob, hp, haux]
    · intro _; exact ⟨by simp [addjob, hp, haux], by simp [addjob, hp, haux]⟩
    · intro hok; rw [show (addjob st pid s cmd).ok = false by simp [addjob, hp, haux]] at hok
      exact absurd hok (by decide)
  | true =>
    have hsucc := addjobAux_success st.jobs pid s cmd st.nextjid
      (by rw [haux] : (addjobAux st.jobs pid s cmd st.nextjid).2.2 = true)
    rw [haux] at hsucc
    obtain ⟨hnj, i, hi, hfree, hset⟩ := hsucc
    have hok : (addjob st pid s cmd).ok = true := by simp [addjob, hp, haux]
    refine ⟨?_, ?_, ?_⟩
    · rw [hok]
      constructor
      · intro hc; exact absurd hc (by decide)
      · intro hall
        have := (addjobAux_fail_iff st.jobs pid s cmd st.nextjid).mpr hall
        rw [haux] at this
        simp at this
    · intro hc; rw [hok] at hc; exact absurd hc (by decide)
    · intro _
      refine ⟨?_, i, hi, hfree, ?_⟩
      · rw [show (addjob st pid s cmd).st.nextjid = njid by simp [addjob, hp, haux]]
        exact hnj
      · rw [show (addjob st pid s cmd).st.jobs = js by simp [addjob, hp, haux]]
        exact hset

/-- Witness for C4: on the empty table, adding pid 5 succeeds, the
counter steps to 2 and slot 0 is filled. -/
theorem C4_addjob_full_table_witness :
    ((addjob initState 5 BG "cmd").ok = false ↔ ∀ j ∈ initState.jobs, j.pid ≠ 0) ∧
    ((addjob initState 5 BG "cmd").ok = false →
      (addjob initState 5 BG "cmd").st = initState ∧
      (addjob initState 5 BG "cmd").out = ["Tried to create too many jobs"]) ∧
    ((addjob initState 5 BG "cmd").ok = true →
      (addjob initState 5 BG "cmd").st.nextjid
          = (if initState.nextjid + 1 > MAXJOBS then 1 else initState.nextjid + 1) ∧
      ∃ i, i < initState.jobs.length ∧ (initState.jobs.getD i emptyJob).pid = 0 ∧
        (addjob initState 5 BG "cmd").st.jobs
          = initState.jobs.set i ⟨5, initState.nextjid, BG, "cmd"⟩) :=
  C4_addjob_full_table initState 5 BG "cmd" (by decide)

/-- Scenario table for C3 after adding the first job (pid 101 gets job
id 1). -/
def c3a : ShellState := (addjob initState 101 BG "j1").st

/-- Scenario table for C3 after adding the second job (pid 102 gets job
id 2). -/
def c3b : ShellState := (addjob c3a 102 BG "j2").st

/-- Scenario table for C3 after adding the third job (pid 103 gets job
id 3). -/
def c3c : ShellState := (addjob c3b 103 BG "j3").st

/-- Scenario table for C3 after removing the job with id 2 (pid 102). -/
def c3d : ShellState := (deletejob c3c 102).1

/-- **C3.** Removing a present pid recomputes the job-id counter as
(maximum job id remaining in the table) + 1; in particular, starting from
the empty table, after adding three jobs (receiving ids 1, 2, 3) and
removing the job with id 2, the counter stands at max(1,3)+1 = 4 and the
next successful add allocates id 4 — not id 2. -/
theorem C3_deletejob_next_id (st : ShellState) (pid : Int)
    (h1 : 1 ≤ pid) (h2 : ∃ j ∈ st.jobs, j.pid = pid) :
    ((deletejob st pid).2 = true ∧
      (deletejob st pid).1.nextjid = maxjid (deletejob st pid).1.jobs + 1) ∧
    ((c3a.jobs.getD 0 emptyJob).jid = 1 ∧
      (c3b.jobs.getD 1 emptyJob).jid = 2 ∧
      (c3c.jobs.getD 2 emptyJob).jid = 3 ∧
      c3d.nextjid = 4 ∧
      (addjob c3d 104 BG "j4").ok = true ∧
      (addjob c3d 104 BG "j4").st.jobs.getD 1 emptyJob = ⟨104, 4, BG, "j4"⟩) := by
  constructor
  · have hp : ¬pid < 1 := by omega
    rcases hdel : deletejobAux st.jobs pid with ⟨js, found⟩
    cases found with
    | false =>
      have := (deletejobAux_found_iff st.jobs pid).mpr h2
      rw [hdel] at this
      simp at this
    | true => exact ⟨by simp [deletejob, hp, hdel], by simp [deletejob, hp, hdel]⟩
  · exact ⟨by decide, by decide, by decide, by decide, by decide, by decide⟩

/-- Witness for C3: deleting pid 102 from the three-job scenario table. -/
theorem C3_deletejob_next_id_witness :
    ((deletejob c3c 102).2 = true ∧
      (deletejob c3c 102).1.nextjid = maxjid (deletejob c3c 102).1.jobs + 1) ∧
    ((c3a.jobs.getD 0 emptyJob).jid = 1 ∧
      (c3b.jobs.getD 1 emptyJob).jid = 2 ∧
      (c3c.jobs.getD 2 emptyJob).jid = 3 ∧
      c3d.nextjid = 4 ∧
      (addjob c3d 104 BG "j4").ok = true ∧
      (addjob c3d 104 BG "j4").st.jobs.getD 1 emptyJob = ⟨104, 4, BG, "j4"⟩) :=
  C3_deletejob_next_id c3c 102 (by decide)
    ⟨⟨102, 2, BG, "j2"⟩, by decide, by decide⟩

/-- **C5.** `deletejob` with a pid matching no occupied slot, or with
`pid ≤ 0`, is a no-op returning 0 (the whole table state is returned
unchanged); moreover on any remove, every slot whose pid differs from the
removed pid is left exactly as it was. -/
theorem C5_deletejob_missing_pid (st : ShellState) (pid : Int) :
    ((pid < 1 ∨ ∀ j ∈ st.jobs, j.pid ≠ pid) → deletejob st pid = (st, false)) ∧
    (∀ i : Nat, (st.jobs.getD i emptyJob).pid ≠ pid →
      (deletejob st pid).1.jobs.getD i emptyJob = st.jobs.getD i emptyJob) := by
  constructor
  · intro h
    rcases h with h | h
    · simp [deletejob, h]
    · by_cases hp : pid < 1
      · simp [deletejob, hp]
      · have := deletejobAux_not_found st.jobs pid h
        simp [deletejob, hp, this]
  · intro i hi
    by_cases hp : pid < 1
    · simp [deletejob, hp]
    · rcases hdel : deletejobAux st.jobs pid with ⟨js, found⟩
      cases found with
      | false => simp [deletejob, hp, hdel]
      | true =>
        have := deletejobAux_getD_ne st.jobs pid i hi
        rw [hdel] at this
        simpa [deletejob, hp, hdel] using this

/-- Witness for C5: removing absent pid 5 from a one-job table is a
visible no-op, and the occupied slot 0 survives removing pid 7
untouched... (both discharged on concrete tables). -/
theorem C5_deletejob_missing_pid_witness :
    deletejob (addjob initState 7 BG "a").st 5 = ((addjob initState 7 BG "a").st, false) ∧
    (deletejob (addjob initState 7 BG "a").st 9).1.jobs.getD 0 emptyJob
      = (addjob initState 7 BG "a").st.jobs.getD 0 emptyJob :=
  ⟨(C5_deletejob_missing_pid (addjob initState 7 BG "a").st 5).1
      (Or.inr (by decide)),
   (C5_deletejob_missing_pid (addjob initState 7 BG "a").st 9).2 0 (by decide)⟩

theorem findByPid_setStateByPid (jobs : List job_t) (pid : Int) (s : Nat)
    (j : job_t) (h : findByPid jobs pid = some j) :
    findByPid (setStateByPid jobs pid s) pid = some { j with state := s } := by
  induction jobs with
  | nil => simp [findByPid] at h
  | cons x rest ih =>
    by_cases hp : x.pid = pid
    · simp only [findByPid, hp, if_true, Option.some.injEq] at h
      subst h
      simp [setStateByPid, findByPid, hp]
    · simp only [findByPid, hp, if_false] at h
      simp only [setStateByPid, hp, if_false, findByPid]
      exact ih h

/-- **C2.** The child-status handler does **not** tolerate a reaped pid
with no matching job record: with an empty job table, reaping pid 42
reported stopped executes `current_job->state = ST` on the NULL pointer
returned by `getjobpid` (embedded: result `none`, i.e. undefined
behavior), and reaping pid 42 reported terminated-by-signal reads
`current_job->jid` through the same NULL pointer (also `none`).  Only the
exited branch is tolerant: it goes through `deletejob`, which handles a
missing pid as a no-op, leaving the table unchanged. -/
theorem C2_sigchld_missing_record :
    sigchld_step initState 42 (WaitStatus.stopped SIGTSTP) = none ∧
    sigchld_step initState 42 (WaitStatus.signaled 2) = none ∧
    sigchld_step initState 42 (WaitStatus.exited 0) = some (initState, []) := by
  exact ⟨by decide, by decide, by decide⟩

/-- Concrete one-job table used for the C9 counterexample: pid 7,
job id 1, foreground, command `sleep 100`. -/
def st9 : ShellState := (addjob initState 7 FG "sleep 100").st

/-- **C9 is false as stated**: reaping the job of `st9` stopped by
SIGSTOP (signal 19) emits the line with signal number 20 (SIGTSTP is
hardcoded in the printf), not the number of the signal that actually
stopped the job. -/
theorem C9_stop_signal_counterexample :
    sigchld_step st9 7 (WaitStatus.stopped SIGSTOP)
        = some (⟨⟨7, 1, ST', "sleep 100"⟩ :: List.replicate 15 emptyJob, 2⟩,
                ["Job [1] (7) stopped by signal 20"]) ∧
    stopLine 1 7 SIGSTOP = "Job [1] (7) stopped by signal 19" ∧
    "Job [1] (7) stopped by signal 20" ≠ "Job [1] (7) stopped by signal 19" := by
  exact ⟨by decide, by decide, by decide⟩

/-- **C9 (amended).** Whenever the child-status handler reaps a child
reported as stopped (and a matching job record exists, so the reap is
well defined), it sets that job's state to Stopped, leaves the counter
alone, and emits exactly the line
`Job [<job_id>] (<pid>) stopped by signal 20` — the signal number printed
is always SIGTSTP's, regardless of which signal actually stopped the
job. -/
theorem C9_stop_notification (st : ShellState) (pid : Int) (sig : Nat)
    (st' : ShellState) (out : List String)
    (h : sigchld_step st pid (WaitStatus.stopped sig) = some (st', out)) :
    out = [stopLine (pid2jid st.jobs pid) pid SIGTSTP] ∧
    st'.nextjid = st.nextjid ∧
    ∃ j, getjobpid st'.jobs pid = some j ∧ j.state = ST' := by
  cases hj : getjobpid st.jobs pid with
  | none => simp [sigchld_step, hj] at h
  | some j =>
    have hp : ¬pid < 1 := by
      have := getjobpid_pos hj
      omega
    simp only [sigchld_step, hj, Option.some.injEq, Prod.mk.injEq] at h
    obtain ⟨h1, h2⟩ := h
    subst h1
    subst h2
    refine ⟨rfl, rfl, { j with state := ST' }, ?_, rfl⟩
    have hfind : findByPid st.jobs pid = some j := by
      simpa [getjobpid, hp] using hj
    simpa [getjobpid, hp] using findByPid_setStateByPid st.jobs pid ST' j hfind

/-- Witness for C9 (amended), at the concrete table `st9` and stopping
signal SIGSTOP. -/
theorem C9_stop_notification_witness :
    [stopLine (pid2jid st9.jobs 7) 7 SIGTSTP]
        = [stopLine (pid2jid st9.jobs 7) 7 SIGTSTP] ∧
    (⟨setStateByPid st9.jobs 7 ST', st9.nextjid⟩ : ShellState).nextjid
        = st9.nextjid ∧
    ∃ j, getjobpid (⟨setStateByPid st9.jobs 7 ST', st9.nextjid⟩ : ShellState).jobs 7
        = some j ∧ j.state = ST' :=
  C9_stop_notification st9 7 SIGSTOP
    ⟨setStateByPid st9.jobs 7 ST', st9.nextjid⟩
    [stopLine (pid2jid st9.jobs 7) 7 SIGTSTP] rfl

/-- **C7.** The Pipeline Builder on `["sort", "<", "in.txt", ">",
"out.txt"]` (whatever the prior value `m` of the global `mode`) yields
exactly one stage whose effective argv is `["sort"]`, with input file
`in.txt` and output file `out.txt`: each redirection operator is nulled
out in place and its following filename token, recorded in the stage,
lies beyond the argv's NULL terminator, so both are excluded from the
argv `execvp` receives. -/
theorem C7_redirection_parsing (m : Nat) :
    (parse_tokens ["sort", "<", "in.txt", ">", "out.txt"] m).stages
        = [⟨0, some "in.txt", some "out.txt"⟩] ∧
    stageArgv (parse_tokens ["sort", "<", "in.txt", ">", "out.txt"] m).arr
        ⟨0, some "in.txt", some "out.txt"⟩ = ["sort"] :=
  ⟨rfl, rfl⟩

/-- Witness for C7 at the initial mode value `UNDEF`. -/
theorem C7_redirection_parsing_witness :
    (parse_tokens ["sort", "<", "in.txt", ">", "out.txt"] UNDEF).stages
        = [⟨0, some "in.txt", some "out.txt"⟩] ∧
    stageArgv (parse_tokens ["sort", "<", "in.txt", ">", "out.txt"] UNDEF).arr
        ⟨0, some "in.txt", some "out.txt"⟩ = ["sort"] :=
  C7_redirection_parsing UNDEF

/-- **C8.** The Pipeline Builder on `["ls", "|", "wc", "-l"]` (whatever
the prior value `m` of the global `mode`) yields exactly two stages with
effective argvs `["ls"]` and `["wc", "-l"]`, neither stage has an input
or output file, and the pipeline's disposition is foreground. -/
theorem C8_pipeline_two_stages (m : Nat) :
    (parse_tokens ["ls", "|", "wc", "-l"] m).stages
        = [⟨0, none, none⟩, ⟨2, none, none⟩] ∧
    stageArgv (parse_tokens ["ls", "|", "wc", "-l"] m).arr ⟨0, none, none⟩
        = ["ls"] ∧
    stageArgv (parse_tokens ["ls", "|", "wc", "-l"] m).arr ⟨2, none, none⟩
        = ["wc", "-l"] ∧
    (parse_tokens ["ls", "|", "wc", "-l"] m).mode = FG :=
  ⟨rfl, rfl, rfl, rfl⟩

/-- Witness for C8 at the initial mode value `UNDEF`. -/
theorem C8_pipeline_two_stages_witness :
    (parse_tokens ["ls", "|", "wc", "-l"] UNDEF).stages
        = [⟨0, none, none⟩, ⟨2, none, none⟩] ∧
    stageArgv (parse_tokens ["ls", "|", "wc", "-l"] UNDEF).arr ⟨0, none, none⟩
        = ["ls"] ∧
    stageArgv (parse_tokens ["ls", "|", "wc", "-l"] UNDEF).arr ⟨2, none, none⟩
        = ["wc", "-l"] ∧
    (parse_tokens ["ls", "|", "wc", "-l"] UNDEF).mode = FG :=
  C8_pipeline_two_stages UNDEF

/-- A main-flow job-table operation for the C6 interleavings: add a
(background) job or remove one by pid. -/
inductive TableOp where
  | add (pid : Int)
  | del (pid : Int)
deriving Repr, DecidableEq

/-- Apply one table operation. -/
def runOp (st : ShellState) : TableOp → ShellState
  | .add pid => (addjob st pid BG "").st
  | .del pid => (deletejob st pid).1

/-- Apply a sequence of table operations left to right. -/
def runOps : ShellState → List TableOp → ShellState
  | st, [] => st
  | st, op :: rest => runOps (runOp st op) rest

/-- The 32-operation interleaving of adds and removes that duplicates a
job id: fill all 16 slots (pids 101–116 get ids 1–16 and the counter
wraps to 1), remove the jobs with ids 2–14 (each removal resets the
counter to `maxjid + 1 = 17`), remove the job with id 16 (the counter
becomes `max(1,15) + 1 = 16`), add pid 117 (it receives id 16 and the
counter wraps to 1), then add pid 118 — it receives id 1, which the job
with pid 101 still holds. -/
def c6ops : List TableOp :=
  (List.range 16).map (fun k => TableOp.add (101 + (k : Int))) ++
  (List.range 13).map (fun k => TableOp.del (102 + (k : Int))) ++
  [TableOp.del 116, TableOp.add 117, TableOp.add 118]

/-- The table state after running the C6 interleaving. -/
def c6state : ShellState := runOps initState c6ops

/-- **C6 is false as stated**: after the concrete interleaving `c6ops`
of add and remove operations, the two occupied slots 0 (pid 101) and 2
(pid 118) hold the same job id 1. -/
theorem C6_duplicate_jid_counterexample :
    (c6state.jobs.getD 0 emptyJob).pid = 101 ∧
    (c6state.jobs.getD 2 emptyJob).pid = 118 ∧
    (c6state.jobs.getD 0 emptyJob).jid = 1 ∧
    (c6state.jobs.getD 2 emptyJob).jid = 1 := by
  exact ⟨by decide, by decide, by decide, by decide⟩

/-- Occupied slots hold pairwise distinct job ids. -/
def jidsUnique (jobs : List job_t) : Prop :=
  List.Pairwise (fun a b => a.pid ≠ 0 → b.pid ≠ 0 → a.jid ≠ b.jid) jobs

/-- Every occupied job id lies strictly below the counter. -/
def jidsFresh (st : ShellState) : Prop :=
  ∀ j ∈ st.jobs, j.pid ≠ 0 → j.jid < st.nextjid

/-- Add/remove interleavings in which every add executes with the counter
strictly below the table capacity, so no add ever wraps the counter
(removals are unrestricted, as are the pids, states and command lines). -/
inductive NWReach : ShellState → Prop where
  | init : NWReach initState
  | add {st : ShellState} (pid : Int) (s : Nat) (cmd : String) :
      NWReach st → st.nextjid < MAXJOBS → NWReach (addjob st pid s cmd).st
  | del {st : ShellState} (pid : Int) :
      NWReach st → NWReach (deletejob st pid).1

theorem le_maxjidAux (jobs : List job_t) (m : Nat) : m ≤ maxjidAux jobs m := by
  induction jobs generalizing m with
  | nil => exact le_refl m
  | cons j rest ih =>
    have h1 : m ≤ (if j.jid > m then j.jid else m) := by split <;> omega
    exact le_trans h1 (ih _)

theorem jid_le_maxjidAux (jobs : List job_t) (m : Nat) :
    ∀ j ∈ jobs, j.jid ≤ maxjidAux jobs m := by
  induction jobs generalizing m with
  | nil => simp
  | cons x rest ih =>
    intro j hj
    rcases List.mem_cons.mp hj with h | h
    · subst h
      have h1 : j.jid ≤ (if j.jid > m then j.jid else m) := by split <;> omega
      exact le_trans h1 (le_maxjidAux rest _)
    · exact ih _ j h

theorem mem_addjobAux (jobs : List job_t) (pid : Int) (s : Nat)
    (cmd : String) (njid : Nat) :
    ∀ x ∈ (addjobAux jobs pid s cmd njid).1,
      x ∈ jobs ∨ x = ⟨pid, njid, s, cmd⟩ := by
  induction jobs with
  | nil => simp [addjobAux]
  | cons j rest ih =>
    by_cases hp : j.pid = 0
    · simp only [addjobAux, hp, if_true]
      intro x hx
      rcases List.mem_cons.mp hx with h | h
      · exact Or.inr h
      · exact Or.inl (List.mem_cons_of_mem _ h)
    · simp only [addjobAux, hp, if_false]
      intro x hx
      rcases List.mem_cons.mp hx with h | h
      · exact Or.inl (h ▸ List.mem_cons_self _ _)
      · rcases ih x h with hh | hh
        · exact Or.inl (List.mem_cons_of_mem _ hh)
        · exact Or.inr hh

theorem mem_deletejobAux (jobs : List job_t) (pid : Int) :
    ∀ x ∈ (deletejobAux jobs pid).1, x ∈ jobs ∨ x = emptyJob := by
  induction jobs with
  | nil => simp [deletejobAux]
  | cons j rest ih =>
    by_cases hp : j.pid = pid
    · simp only [deletejobAux, hp, if_true]
      intro x hx
      rcases List.mem_cons.mp hx with h | h
      · exact Or.inr h
      · exact Or.inl (List.mem_cons_of_mem _ h)
    · simp only [deletejobAux, hp, if_false]
      intro x hx
      rcases List.mem_cons.mp hx with h | h
      · exact Or.inl (h ▸ List.mem_cons_self _ _)
      · rcases ih x h with hh | hh
        · exact Or.inl (List.mem_cons_of_mem _ hh)
        · exact Or.inr hh

theorem jidsUnique_addjobAux (jobs : List job_t) (pid : Int) (s : Nat)
    (cmd : String) (njid : Nat)
    (hfresh : ∀ j ∈ jobs, j.pid ≠ 0 → j.jid < njid)
    (huniq : jidsUnique jobs) :
    jidsUnique (addjobAux jobs pid s cmd njid).1 := by
  induction jobs with
  | nil => simp [addjobAux, jidsUnique]
  | cons j rest ih =>
    obtain ⟨hrel, hrest⟩ := List.pairwise_cons.mp huniq
    by_cases hp : j.pid = 0
    · simp only [addjobAux, hp, if_true]
      refine List.Pairwise.cons ?_ hrest
      intro b hb _ hbocc
      have := hfresh b (List.mem_cons_of_mem _ hb) hbocc
      show njid ≠ b.jid
      omega
    · simp only [addjobAux, hp, if_false]
      refine List.Pairwise.cons ?_
        (ih (fun y hy => hfresh y (List.mem_cons_of_mem _ hy)) hrest)
      intro b hb hjocc hbocc
      rcases mem_addjobAux rest pid s cmd njid b hb with hmem | hnew
      · exact hrel b hmem hjocc hbocc
      · subst hnew
        have := hfresh j (List.mem_cons_self _ _) hjocc
        show j.jid ≠ njid
        omega

theorem jidsUnique_deletejobAux (jobs : List job_t) (pid : Int)
    (huniq : jidsUnique jobs) :
    jidsUnique (deletejobAux jobs pid).1 := by
  induction jobs with
  | nil => simp [deletejobAux, jidsUnique]
  | cons j rest ih =>
    obtain ⟨hrel, hrest⟩ := List.pairwise_cons.mp huniq
    by_cases hp : j.pid = pid
    · simp only [deletejobAux, hp, if_true]
      refine List.Pairwise.cons ?_ hrest
      intro b _ habs _
      exact absurd rfl habs
    · simp only [deletejobAux, hp, if_false]
      refine List.Pairwise.cons ?_ (ih hrest)
      intro b hb hjocc hbocc
      rcases mem_deletejobAux rest pid b hb with hmem | hemp
      · exact hrel b hmem hjocc hbocc
      · subst hemp
        exact absurd rfl hbocc

/-- The C6 inductive invariant: distinct occupied ids, all below the
counter. -/
def C6Inv (st : ShellState) : Prop := jidsUnique st.jobs ∧ jidsFresh st

theorem c6inv_addjob (st : ShellState) (pid : Int) (s : Nat) (cmd : String)
    (hg : st.nextjid < MAXJOBS) (hinv : C6Inv st) :
    C6Inv (addjob st pid s cmd).st := by
  obtain ⟨hu, hf⟩ := hinv
  by_cases hp : pid < 1
  · simpa [addjob, hp, C6Inv] using ⟨hu, hf⟩
  · rcases haux : addjobAux st.jobs pid s cmd st.nextjid with ⟨js, njid, ok⟩
    cases ok with
    | false => simpa [addjob, hp, haux, C6Inv] using ⟨hu, hf⟩
    | true =>
      have hjobs : (addjob st pid s cmd).st.jobs = js := by
        simp [addjob, hp, haux]
      have hnjid : (addjob st pid s cmd).st.nextjid = njid := by
        simp [addjob, hp, haux]
      have hsucc := addjobAux_success st.jobs pid s cmd st.nextjid
        (by rw [haux] : (addjobAux st.jobs pid s cmd st.nextjid).2.2 = true)
      rw [haux] at hsucc
      have hnj : njid = st.nextjid + 1 := by
        have h1 := hsucc.1
        rw [if_neg (by omega)] at h1
        exact h1
      unfold C6Inv
      constructor
      · rw [hjobs]
        have := jidsUnique_addjobAux st.jobs pid s cmd st.nextjid hf hu
        rw [haux] at this
        exact this
      · unfold jidsFresh
        rw [hjobs, hnjid, hnj]
        intro x hx hocc
        have hx' : x ∈ (addjobAux st.jobs pid s cmd st.nextjid).1 := by
          rw [haux]; exact hx
        rcases mem_addjobAux st.jobs pid s cmd st.nextjid x hx' with hm | hn
        · have := hf x hm hocc
          omega
        · subst hn
          show st.nextjid < st.nextjid + 1
          omega

theorem c6inv_deletejob (st : ShellState) (pid : Int) (hinv : C6Inv st) :
    C6Inv (deletejob st pid).1 := by
  obtain ⟨hu, hf⟩ := hinv
  by_cases hp : pid < 1
  · simpa [deletejob, hp, C6Inv] using ⟨hu, hf⟩
  · rcases hdel : deletejobAux st.jobs pid with ⟨js, found⟩
    cases found with
    | false => simpa [deletejob, hp, hdel, C6Inv] using ⟨hu, hf⟩
    | true =>
      have hjobs : (deletejob st pid).1.jobs = js := by
        simp [deletejob, hp, hdel]
      have hnjid : (deletejob st pid).1.nextjid = maxjid js + 1 := by
        simp [deletejob, hp, hdel]
      unfold C6Inv
      constructor
      · rw [hjobs]
        have := jidsUnique_deletejobAux st.jobs pid hu
        rw [hdel] at this
        exact this
      · unfold jidsFresh
        rw [hjobs, hnjid]
        intro x hx _
        have := jid_le_maxjidAux js 0 x hx
        unfold maxjid
        omega

theorem c6inv_reach {st : ShellState} (h : NWReach st) : C6Inv st := by
  induction h with
  | init =>
    refine ⟨?_, ?_⟩
    · unfold jidsUnique
      decide
    · unfold jidsFresh
      decide
  | add pid s cmd _ hg ih => exact c6inv_addjob _ pid s cmd hg ih
  | del pid _ ih => exact c6inv_deletejob _ pid ih

/-- **C6 (amended).** Job ids are assigned monotonically from the
table-wide counter, which wraps to 1 after exceeding the table capacity;
under every interleaving of add and remove operations *in which no add
wraps the counter* (every add runs with the counter below the capacity),
no two occupied slots ever hold the same job id.  (Once a wrap occurs
the ids may collide, as `C6_duplicate_jid_counterexample` shows.) -/
theorem C6_unique_jids_no_wrap (st : ShellState) (h : NWReach st) :
    jidsUnique st.jobs :=
  (c6inv_reach h).1

/-- Witness for C6 (amended): add pids 101 and 102, remove 101. -/
theorem C6_unique_jids_no_wrap_witness :
    jidsUnique
      (deletejob (addjob (addjob initState 101 BG "a").st 102 BG "b").st 101).1.jobs :=
  C6_unique_jids_no_wrap _
    (NWReach.del 101
      (NWReach.add 102 BG "b"
        (NWReach.add 101 BG "a" NWReach.init (by decide)) (by decide)))

example : (addjob initState 7 FG "sleep").ok = true := by decide

example : (addjob initState 7 FG "sleep").st.nextjid = 2 := by decide

example : fgpid (addjob initState 7 FG "sleep").st.jobs = 7 := by decide

example : (deletejob (addjob initState 7 FG "sleep").st 7).1 = initState := by decide

example :
    (parse_tokens ["ls", "|", "wc", "-l"] UNDEF).stages =
      [⟨0, none, none⟩, ⟨2, none, none⟩] := by decide

example : (parse_tokens ["ls", "|", "wc", "-l"] UNDEF).mode = FG := by decide

example :
    stageArgv (parse_tokens ["ls", "|", "wc", "-l"] UNDEF).arr ⟨2, none, none⟩ =
      ["wc", "-l"] := by decide

example :
    (parse_tokens ["sort", "<", "in.txt", ">", "out.txt"] UNDEF).stages =
      [⟨0, some "in.txt", some "out.txt"⟩] := by decide

example :
    stageArgv (parse_tokens ["sort", "<", "in.txt", ">", "out.txt"] UNDEF).arr
      ⟨0, some "in.txt", some "out.txt"⟩ = ["sort"] := by decide

example : (parse_tokens ["sleep", "5", "&"] UNDEF).mode = BG := by decide

example :
    sigchld_step initState 42 (WaitStatus.stopped SIGSTOP) = none := by decide

example :
    sigchld_step (addjob initState 7 FG "x").st 7 (WaitStatus.stopped SIGSTOP)
      = some (⟨setStateByPid (addjob initState 7 FG "x").st.jobs 7 ST', 2⟩,
              [stopLine 1 7 SIGTSTP]) := by decide
